import Mathlib

/-!
Verification of the Marketing Intelligence Dashboard analytics core.

The definitions below are a shallow embedding of the analytics logic of
`src/dashboard.py` (executive-summary metrics, the `main` filtering block,
pandas-style group aggregation with 2-decimal display rounding, the
recommendation engine's argmax heuristics, and `pct_change`) and of the
module body of `run_dashboard.py` (dataset loading and platform selection).
Tables are lists of records; numeric columns are rationals; calendar dates
are integers (day ordinals); pandas NaN cells are `Option.none`.
-/

namespace MarketingDashboard

/-- Row of the processed marketing table: raw columns plus the load-time
derived ratios `roas`, `ctr`, `cpc` carried as data. -/
structure MarketingRow where
  date : Int
  platform : String
  tactic : String
  state : String
  spend : Rat
  attributed_revenue : Rat
  impressions : Int
  clicks : Int
  roas : Rat
  ctr : Rat
  cpc : Rat
deriving DecidableEq

/-- Row of the business table (`business.csv`): date, order count,
new-customer count, total revenue. -/
structure BusinessRow where
  date : Int
  orders : Rat
  new_customers : Rat
  total_revenue : Rat
deriving DecidableEq

/-- Guarded ROAS of `dashboard.py` lines 96 and 183:
`roas = total_revenue / total_spend if total_spend > 0 else 0`. -/
def roas (total_revenue total_spend : Rat) : Rat :=
  if total_spend > 0 then total_revenue / total_spend else 0

/-- Guarded CAC of `dashboard.py` line 99:
`cac = total_spend / new_customers if new_customers > 0 else 0`. -/
def cac (total_spend new_customers : Rat) : Rat :=
  if new_customers > 0 then total_spend / new_customers else 0

/-- Metrics computed by `show_executive_summary` (`dashboard.py` lines 94-99). -/
structure ExecSummary where
  total_spend : Rat
  total_revenue : Rat
  roas : Rat
  total_orders : Rat
  new_customers : Rat
  cac : Rat
deriving DecidableEq

/-- Embedding of the metric computations of `show_executive_summary`
(`dashboard.py` lines 94-99): column sums over the filtered tables, with
the order/new-customer sums guarded by `len(filtered_business) > 0` and the
two ratios division-guarded. -/
def show_executive_summary (fm : List MarketingRow) (fb : List BusinessRow) :
    ExecSummary :=
  let total_spend := (fm.map MarketingRow.spend).sum
  let total_revenue := (fm.map MarketingRow.attributed_revenue).sum
  let total_orders := if fb.length > 0 then (fb.map BusinessRow.orders).sum else 0
  let new_customers := if fb.length > 0 then (fb.map BusinessRow.new_customers).sum else 0
  { total_spend := total_spend
    total_revenue := total_revenue
    roas := roas total_revenue total_spend
    total_orders := total_orders
    new_customers := new_customers
    cac := cac total_spend new_customers }

/-- Marketing-table predicate of `main` (`dashboard.py` line 289): date in
the inclusive range and platform in the selected set. -/
def marketing_pred (start_date end_date : Int) (platforms : List String)
    (r : MarketingRow) : Bool :=
  decide (start_date ≤ r.date ∧ r.date ≤ end_date ∧ r.platform ∈ platforms)

/-- Business-table predicate of `main` (`dashboard.py` line 290): date in
the inclusive range (platform-independent). -/
def business_pred (start_date end_date : Int) (r : BusinessRow) : Bool :=
  decide (start_date ≤ r.date ∧ r.date ≤ end_date)

/-- Filtered marketing table of `main` (`dashboard.py` line 289). -/
def filter_marketing (start_date end_date : Int) (platforms : List String)
    (md : List MarketingRow) : List MarketingRow :=
  md.filter (marketing_pred start_date end_date platforms)

/-- Filtered business table of `main` (`dashboard.py` line 290). -/
def filter_business (start_date end_date : Int) (bd : List BusinessRow) :
    List BusinessRow :=
  bd.filter (business_pred start_date end_date)

/-- Embedding of the filtering block of `main` (`dashboard.py` lines
286-293): with exactly two dates in the range control both tables are
date-and-platform filtered; otherwise the marketing table is filtered by
platform membership only and the business table is passed through. -/
def main_filter (date_range : List Int) (platforms : List String)
    (md : List MarketingRow) (bd : List BusinessRow) :
    List MarketingRow × List BusinessRow :=
  match date_range with
  | [start_date, end_date] =>
      (filter_marketing start_date end_date platforms md,
       filter_business start_date end_date bd)
  | _ => (md.filter (fun r => decide (r.platform ∈ platforms)), bd)

/-- Round-half-to-even to an integer, the rounding used by numpy/pandas
`round`. Values with fractional part below one half round down, above one
half round up, and exact halves round to the even neighbour. -/
def round_half_even (q : Rat) : Int :=
  if q - ⌊q⌋ < 1 / 2 then ⌊q⌋
  else if q - ⌊q⌋ > 1 / 2 then ⌊q⌋ + 1
  else if ⌊q⌋ % 2 = 0 then ⌊q⌋ else ⌊q⌋ + 1

/-- Pandas `.round(2)`: round to 2 decimal places, halves to even. -/
def round2 (q : Rat) : Rat :=
  (round_half_even (q * 100) : Rat) / 100

/-- Distinct group keys of a table in ascending order — pandas `groupby`
enumerates group labels sorted ascending (`sort=True` default). -/
def group_keys {K : Type} [LinearOrder K] (key : MarketingRow → K)
    (fm : List MarketingRow) : List K :=
  List.insertionSort (fun a b => a ≤ b) (fm.map key).dedup

/-- Rows of one group: the filtered-table rows whose key equals `k`. -/
def group_rows {K : Type} [DecidableEq K] (key : MarketingRow → K) (k : K)
    (fm : List MarketingRow) : List MarketingRow :=
  fm.filter (fun r => decide (key r = k))

/-- Arithmetic mean of a list, as pandas computes a column mean
(sum divided by count). -/
def list_mean (l : List Rat) : Rat :=
  l.sum / l.length

/-- Unrounded per-group sums of a column, in ascending key order: the
values an `agg .. sum` produces before any display rounding. -/
def group_sums {K : Type} [LinearOrder K] (key : MarketingRow → K)
    (val : MarketingRow → Rat) (fm : List MarketingRow) : List Rat :=
  (group_keys key fm).map (fun k => ((group_rows key k fm).map val).sum)

/-- Unrounded per-group means of a column, in ascending key order: the
values an `agg .. mean` produces before any display rounding. -/
def group_means {K : Type} [LinearOrder K] (key : MarketingRow → K)
    (val : MarketingRow → Rat) (fm : List MarketingRow) : List Rat :=
  (group_keys key fm).map (fun k => list_mean ((group_rows key k fm).map val))

/-- One rounded sum-aggregated column as built at `dashboard.py` lines 118,
132 and 185-187: `groupby(dim).agg(col. sum).round(2)`, keyed rows in
ascending key order. -/
def agg_sum_rounded {K : Type} [LinearOrder K] (key : MarketingRow → K)
    (val : MarketingRow → Rat) (fm : List MarketingRow) : List (K × Rat) :=
  (group_keys key fm).map
    (fun k => (k, round2 (((group_rows key k fm).map val).sum)))

/-- One rounded mean-aggregated column as built at `dashboard.py` lines 118,
132 and 185-187: `groupby(dim).agg(col. mean).round(2)`, keyed rows in
ascending key order. -/
def agg_mean_rounded {K : Type} [LinearOrder K] (key : MarketingRow → K)
    (val : MarketingRow → Rat) (fm : List MarketingRow) : List (K × Rat) :=
  (group_keys key fm).map
    (fun k => (k, round2 (list_mean ((group_rows key k fm).map val))))

/-- Scan step of pandas `Series.idxmax`: fold over the remaining rows,
replacing the current best only on a strictly greater value, so the first
row attaining the maximum is kept. -/
def idxmax_from {K : Type} : List (K × Rat) → K × Rat → K × Rat
  | [], best => best
  | p :: ps, best => if p.2 > best.2 then idxmax_from ps p else idxmax_from ps best

/-- Pandas `Series.idxmax`: the label of the first row attaining the
maximal value (`none` on an empty series). -/
def idxmax {K : Type} : List (K × Rat) → Option K
  | [] => none
  | p :: ps => some (idxmax_from ps p).1

/-- Rounded `roas` column of `channel_performance` (`dashboard.py` line 185). -/
def channel_performance_roas (fm : List MarketingRow) : List (String × Rat) :=
  agg_mean_rounded MarketingRow.platform MarketingRow.roas fm

/-- Mean of the `channel_performance` roas column (`dashboard.py` line 189):
computed from the already-rounded aggregate values. -/
def avg_roas (fm : List MarketingRow) : Rat :=
  list_mean ((channel_performance_roas fm).map Prod.snd)

/-- Spec-side counterpart of `avg_roas`, following the spec's words that
further computation operates on unrounded aggregates: the mean of the
unrounded per-channel mean roas. For comparison with `avg_roas`. -/
def spec_avg_roas (fm : List MarketingRow) : Rat :=
  list_mean (group_means MarketingRow.platform MarketingRow.roas fm)

/-- Best channel pick (`dashboard.py` line 197):
`channel_performance['roas'].idxmax()`. -/
def best_channel (fm : List MarketingRow) : Option String :=
  idxmax (channel_performance_roas fm)

/-- Best state pick (`dashboard.py` line 203):
`state_performance['roas'].idxmax()`. -/
def best_state (fm : List MarketingRow) : Option String :=
  idxmax (agg_mean_rounded MarketingRow.state MarketingRow.roas fm)

/-- Best tactic pick (`dashboard.py` line 209):
`tactic_performance['roas'].idxmax()`. -/
def best_tactic (fm : List MarketingRow) : Option String :=
  idxmax (agg_mean_rounded MarketingRow.tactic MarketingRow.roas fm)

/-- Pandas `Series.pct_change`: the first cell is NaN (`none`), and every
later cell is the relative change from its immediate predecessor. -/
def pct_change (l : List Rat) : List (Option Rat) :=
  match l with
  | [] => []
  | _ :: xs => none :: List.zipWith (fun prev cur => some ((cur - prev) / prev)) l xs

/-- Daily spend series of `daily_data` (`dashboard.py` line 146):
`groupby('date').agg(spend. sum)`, unrounded, dates ascending. -/
def daily_spend (fm : List MarketingRow) : List Rat :=
  group_sums MarketingRow.date MarketingRow.spend fm

/-- Growth-rate column (`dashboard.py` line 147):
`daily_data['spend'].pct_change() * 100`; NaN cells stay NaN. -/
def spend_growth (l : List Rat) : List (Option Rat) :=
  (pct_change l).map (Option.map (fun g => g * 100))

/-- Variables bound by the dataset-loading `try` block of
`run_dashboard.py` lines 34-41; `none` marks a name the aborted block
never bound. -/
structure LoadedFrames (α β : Type) where
  facebook_df : Option α
  google_df : Option α
  tiktok_df : Option α
  business_df : Option β

/-- Embedding of the `try` block of `run_dashboard.py` lines 34-41: the four
`read_csv` assignments run in order; the first failing read aborts the
block (the exception is caught and only reported), leaving the later
variables unbound. Each argument is `some` rows when its file loads. -/
def load_datasets {α β : Type} (facebook_csv google_csv tiktok_csv : Option α)
    (business_csv : Option β) : LoadedFrames α β :=
  match facebook_csv with
  | none => ⟨none, none, none, none⟩
  | some f =>
    match google_csv with
    | none => ⟨some f, none, none, none⟩
    | some g =>
      match tiktok_csv with
      | none => ⟨some f, some g, none, none⟩
      | some t =>
        match business_csv with
        | none => ⟨some f, some g, some t, none⟩
        | some b => ⟨some f, some g, some t, some b⟩

/-- Embedding of the platform selection of `run_dashboard.py` lines 49-56:
`df` is assigned from the frame variable matching the selector. Reading a
variable the failed load never bound raises `NameError`, modelled as
`Except.error`. -/
def select_platform {α β : Type} (frames : LoadedFrames α β)
    (platform : String) : Except String α :=
  if platform = "Facebook" then
    match frames.facebook_df with
    | some df => Except.ok df
    | none => Except.error "NameError"
  else if platform = "Google" then
    match frames.google_df with
    | some df => Except.ok df
    | none => Except.error "NameError"
  else
    match frames.tiktok_df with
    | some df => Except.ok df
    | none => Except.error "NameError"

/-- Example marketing row used to instantiate universally quantified
theorems at concrete inputs. -/
def exRowM : MarketingRow :=
  { date := 1, platform := "Facebook", tactic := "Retargeting", state := "CA",
    spend := 100, attributed_revenue := 400, impressions := 1000, clicks := 50,
    roas := 4, ctr := 5, cpc := 2 }

/-- Example business row used to instantiate universally quantified
theorems at concrete inputs. -/
def exRowB : BusinessRow :=
  { date := 1, orders := 30, new_customers := 10, total_revenue := 900 }

/-- Helper: filtering a list twice with the same Boolean predicate gives
the once-filtered list. -/
theorem filter_self_idem {α : Type} (p : α → Bool) (l : List α) :
    (l.filter p).filter p = l.filter p := by
  induction l with
  | nil => rfl
  | cons a t ih =>
    by_cases h : p a
    · simp [List.filter, h, ih]
    · simp [List.filter, h, ih]

/-- C1: the derived ROAS equals revenue/spend when spend > 0 and the
sentinel 0 when spend ≤ 0, and CAC equals spend/new_customers when
new_customers > 0 and 0 otherwise (`dashboard.py` lines 96, 99, 183).
Both functions are total Lean functions, so no arithmetic fault can be
raised, and the division is only taken under a positive denominator. -/
theorem roas_cac_guarded (revenue spend new_customers : Rat) :
    (0 < spend → roas revenue spend = revenue / spend) ∧
    (spend ≤ 0 → roas revenue spend = 0) ∧
    (0 < new_customers → cac spend new_customers = spend / new_customers) ∧
    (new_customers ≤ 0 → cac spend new_customers = 0) := by
  refine ⟨fun h => ?_, fun h => ?_, fun h => ?_, fun h => ?_⟩
  · simp [roas, h]
  · simp [roas, not_lt.mpr h]
  · simp [cac, h]
  · simp [cac, not_lt.mpr h]

/-- Witness for C1 at revenue = 400, spend = 100, new_customers = 0. -/
theorem roas_cac_guarded_witness :
    0 < (100 : Rat) ∧ roas 400 100 = 400 / 100 ∧
      (0 : Rat) ≤ 0 ∧ cac 100 0 = 0 :=
  ⟨by decide, (roas_cac_guarded 400 100 0).1 (by decide),
   by decide, (roas_cac_guarded 400 100 0).2.2.2 (by decide)⟩

/-- C10: with an empty filtered business table the executive summary
reports 0 orders, 0 new customers, and sentinel CAC 0, while the
marketing-derived metrics (spend, revenue, ROAS) agree with the ones
computed alongside any business table (`dashboard.py` lines 94-111). -/
theorem show_executive_summary_empty_business (fm : List MarketingRow)
    (fb : List BusinessRow) :
    (show_executive_summary fm []).total_orders = 0 ∧
    (show_executive_summary fm []).new_customers = 0 ∧
    (show_executive_summary fm []).cac = 0 ∧
    (show_executive_summary fm []).total_spend = (show_executive_summary fm fb).total_spend ∧
    (show_executive_summary fm []).total_revenue = (show_executive_summary fm fb).total_revenue ∧
    (show_executive_summary fm []).roas = (show_executive_summary fm fb).roas := by
  refine ⟨rfl, rfl, ?_, rfl, rfl, rfl⟩
  simp [show_executive_summary, cac]

/-- C5: a date range with start strictly after end filters both tables to
empty, and an empty platform set filters the marketing table to empty;
the filter is a total function, so no exception can be raised
(`dashboard.py` lines 286-293). -/
theorem main_filter_degenerate :
    (∀ (s e : Int) (ps : List String) (md : List MarketingRow)
        (bd : List BusinessRow), e < s → main_filter [s, e] ps md bd = ([], [])) ∧
    (∀ (s e : Int) (md : List MarketingRow) (bd : List BusinessRow),
        (main_filter [s, e] [] md bd).1 = []) := by
  constructor
  · intro s e ps md bd h
    have h1 : filter_marketing s e ps md = [] := by
      apply List.filter_eq_nil_iff.mpr
      intro r _
      simp only [marketing_pred, decide_eq_true_eq, not_and]
      intro h2 h3
      omega
    have h2 : filter_business s e bd = [] := by
      apply List.filter_eq_nil_iff.mpr
      intro r _
      simp only [business_pred, decide_eq_true_eq, not_and]
      intro h2
      omega
    simp [main_filter, h1, h2]
  · intro s e md bd
    simp only [main_filter]
    apply List.filter_eq_nil_iff.mpr
    intro r _
    simp [marketing_pred]

/-- Witness for C5 at the range [3, 1] and a one-row snapshot. -/
theorem main_filter_degenerate_witness :
    (1 : Int) < 3 ∧ main_filter [3, 1] ["Facebook"] [exRowM] [exRowB] = ([], []) :=
  ⟨by decide, main_filter_degenerate.1 3 1 ["Facebook"] [exRowM] [exRowB] (by decide)⟩

/-- C6: the `main` filter is idempotent — re-applying the identical
predicate to an already-filtered table returns the same table, for the
marketing filter, the business filter, and the platform-only fallback
filter (`dashboard.py` lines 289-292). -/
theorem main_filter_idempotent (s e : Int) (ps : List String)
    (md : List MarketingRow) (bd : List BusinessRow) :
    filter_marketing s e ps (filter_marketing s e ps md) = filter_marketing s e ps md ∧
    filter_business s e (filter_business s e bd) = filter_business s e bd ∧
    (md.filter (fun r => decide (r.platform ∈ ps))).filter
        (fun r => decide (r.platform ∈ ps)) =
      md.filter (fun r => decide (r.platform ∈ ps)) :=
  ⟨filter_self_idem _ _, filter_self_idem _ _, filter_self_idem _ _⟩

/-- C9: when the date-range control yields fewer than two dates, the
marketing table is filtered by platform membership only and the business
table passes through unfiltered; the function is total, so nothing is
raised (`dashboard.py` lines 287-293). -/
theorem main_filter_short_range (dr : List Int) (ps : List String)
    (md : List MarketingRow) (bd : List BusinessRow) (h : dr.length < 2) :
    main_filter dr ps md bd =
      (md.filter (fun r => decide (r.platform ∈ ps)), bd) := by
  match dr with
  | [] => rfl
  | [_] => rfl
  | _ :: _ :: _ => exact absurd h (by simp)

/-- Witness for C9 at a one-date range and a one-row snapshot. -/
theorem main_filter_short_range_witness :
    ([5] : List Int).length < 2 ∧
      main_filter [5] ["Facebook"] [exRowM] [exRowB] =
        ([exRowM].filter (fun r => decide (r.platform ∈ ["Facebook"])), [exRowB]) :=
  ⟨by decide, main_filter_short_range [5] ["Facebook"] [exRowM] [exRowB] (by decide)⟩

/-- Helper: positivity of every cell of the percent-change tail of a
series of positive, strictly increasing values. -/
theorem zip_growth_pos (x : Rat) (xs : List Rat) (hx : 0 < x)
    (hpos : ∀ y ∈ xs, 0 < y)
    (hinc : List.Chain' (fun a b => a < b) (x :: xs)) :
    ∀ g ∈ List.zipWith (fun prev cur => some ((cur - prev) / prev * 100)) (x :: xs) xs,
      ∃ q, g = some q ∧ 0 < q := by
  induction xs generalizing x with
  | nil => intro g hg; simp at hg
  | cons y ys ih =>
    intro g hg
    rw [List.chain'_cons] at hinc
    simp only [List.zipWith, List.mem_cons] at hg
    rcases hg with hg | hg
    · refine ⟨(y - x) / x * 100, hg, ?_⟩
      have hxy : 0 < (y - x) / x := div_pos (by linarith [hinc.1]) hx
      positivity
    · exact ih y (hpos y (List.mem_cons_self y ys))
        (fun z hz => hpos z (List.mem_cons_of_mem y hz)) hinc.2 g hg

/-- C7: on a date-ordered spend series the growth-rate column
(`dashboard.py` lines 146-147) marks the first element with a null
marker (NaN, not zero), every later cell is the percent change from its
immediate predecessor, and for a strictly increasing series of positive
spends every cell after the first is strictly positive. -/
theorem spend_growth_spec (l : List Rat) (hne : l ≠ [])
    (hpos : ∀ x ∈ l, 0 < x) (hinc : List.Chain' (fun a b => a < b) l) :
    (spend_growth l).head? = some none ∧
    (spend_growth l).tail =
      List.zipWith (fun prev cur => some ((cur - prev) / prev * 100)) l l.tail ∧
    (∀ g ∈ (spend_growth l).tail, ∃ q, g = some q ∧ 0 < q) := by
  match l with
  | [] => exact absurd rfl hne
  | x :: xs =>
    refine ⟨rfl, ?_, ?_⟩
    · simp [spend_growth, pct_change, List.map_zipWith]
    · have htail : (spend_growth (x :: xs)).tail =
          List.zipWith (fun prev cur => some ((cur - prev) / prev * 100)) (x :: xs) xs := by
        simp [spend_growth, pct_change, List.map_zipWith]
      rw [htail]
      exact zip_growth_pos x xs (hpos x (List.mem_cons_self x xs))
        (fun z hz => hpos z (List.mem_cons_of_mem x hz)) hinc

/-- Witness for C7 at the strictly increasing series [1, 2, 4]. -/
theorem spend_growth_spec_witness :
    ([1, 2, 4] : List Rat) ≠ [] ∧
      (spend_growth [1, 2, 4]).head? = some none ∧
      (∀ g ∈ (spend_growth [1, 2, 4]).tail, ∃ q, g = some q ∧ 0 < q) :=
  ⟨by decide,
   (spend_growth_spec [1, 2, 4] (by decide) (by decide)
      (List.chain'_cons.mpr ⟨by decide,
        List.chain'_cons.mpr ⟨by decide, List.chain'_singleton 4⟩⟩)).1,
   (spend_growth_spec [1, 2, 4] (by decide) (by decide)
      (List.chain'_cons.mpr ⟨by decide,
        List.chain'_cons.mpr ⟨by decide, List.chain'_singleton 4⟩⟩)).2.2⟩

/-- C8 failing input: when `Facebook.csv` fails to load, the `try` block of
`run_dashboard.py` lines 34-41 leaves `facebook_df` unbound (the exception
is only reported), and the unconditional platform selection at lines 49-56
then raises `NameError`, aborting the script run instead of proceeding
with the affected section skipped. -/
theorem load_failure_aborts {α β : Type} (google_csv tiktok_csv : Option α)
    (business_csv : Option β) :
    select_platform (load_datasets none google_csv tiktok_csv business_csv)
      "Facebook" = Except.error "NameError" := rfl

/-- Helper: a sum of `if a = k then v else 0` over a list not containing
`a` is zero. -/
theorem sum_map_ite_of_not_mem {K : Type} [DecidableEq K] (a : K) (v : Rat) :
    ∀ (ks : List K), a ∉ ks →
      (ks.map (fun k => if a = k then v else 0)).sum = 0 := by
  intro ks
  induction ks with
  | nil => intro _; rfl
  | cons k t ih =>
    intro ha
    have hak : a ≠ k := fun h => ha (h ▸ List.mem_cons_self k t)
    have hat : a ∉ t := fun h => ha (List.mem_cons_of_mem k h)
    simp [hak, ih hat]

/-- Helper: a sum of `if a = k then v else 0` over a duplicate-free list
containing `a` is `v`. -/
theorem sum_map_ite_of_mem {K : Type} [DecidableEq K] (a : K) (v : Rat) :
    ∀ (ks : List K), ks.Nodup → a ∈ ks →
      (ks.map (fun k => if a = k then v else 0)).sum = v := by
  intro ks
  induction ks with
  | nil => intro _ h; simp at h
  | cons k t ih =>
    intro hnd ha
    rcases List.mem_cons.mp ha with h | h
    · subst h
      have hat : a ∉ t := (List.nodup_cons.mp hnd).1
      simp [sum_map_ite_of_not_mem a v t hat]
    · have hak : a ≠ k := by
        intro he
        exact (List.nodup_cons.mp hnd).1 (he ▸ h)
      simp [hak, ih (List.nodup_cons.mp hnd).2 h]

/-- Helper: summing a column fiber-wise over a duplicate-free key list that
covers every row's key recovers the whole-column sum. -/
theorem sum_fiberwise {R K : Type} [DecidableEq K] (key : R → K) (val : R → Rat) :
    ∀ (rows : List R) (ks : List K), ks.Nodup → (∀ r ∈ rows, key r ∈ ks) →
      (ks.map (fun k =>
        ((rows.filter (fun r => decide (key r = k))).map val).sum)).sum =
      (rows.map val).sum := by
  intro rows
  induction rows with
  | nil => intro ks _ _; simp
  | cons r rs ih =>
    intro ks hnd hmem
    have hstep : ∀ k ∈ ks,
        (((r :: rs).filter (fun x => decide (key x = k))).map val).sum =
        (if key r = k then val r else 0) +
          ((rs.filter (fun x => decide (key x = k))).map val).sum := by
      intro k _
      by_cases h : key r = k
      · simp [List.filter_cons, h]
      · simp [List.filter_cons, h]
    rw [List.map_congr_left hstep, List.sum_map_add]
    rw [sum_map_ite_of_mem (key r) (val r) ks hnd (hmem r (List.mem_cons_self r rs))]
    rw [ih ks hnd (fun x hx => hmem x (List.mem_cons_of_mem r hx))]
    simp

/-- Helper: the sorted deduplicated key list of a table is duplicate-free
and contains every row's key, so unrounded group sums conserve the
column total. -/
theorem group_sums_conserve {K : Type} [LinearOrder K] (key : MarketingRow → K)
    (val : MarketingRow → Rat) (fm : List MarketingRow) :
    (group_sums key val fm).sum = (fm.map val).sum := by
  have hperm : List.Perm (group_keys key fm) (fm.map key).dedup :=
    List.perm_insertionSort _ _
  have hnd : (group_keys key fm).Nodup :=
    hperm.nodup_iff.mpr (List.nodup_dedup _)
  have hmem : ∀ r ∈ fm, key r ∈ group_keys key fm := by
    intro r hr
    exact hperm.mem_iff.mpr (List.mem_dedup.mpr (List.mem_map_of_mem key hr))
  exact sum_fiberwise key val fm (group_keys key fm) hnd hmem

/-- Concrete one-row table whose spend needs rounding: spend 1.006. -/
def exC3 : MarketingRow :=
  { date := 1, platform := "A", tactic := "T", state := "CA",
    spend := 1006 / 1000, attributed_revenue := 2, impressions := 10,
    clicks := 5, roas := 2, ctr := 1, cpc := 1 }

/-- Helper: rounding 1.006 to two decimals gives 1.01. -/
theorem round2_eval_1006 : round2 (1006 / 1000) = 101 / 100 := by
  have hm : ((1006 : Rat) / 1000) * 100 = 503 / 5 := by norm_num
  have hf : ⌊(503 / 5 : Rat)⌋ = 100 := by
    rw [Int.floor_eq_iff]
    norm_num
  rw [round2, hm, round_half_even, hf]
  norm_num

/-- C3 counterexample: on the one-row table with spend 1.006 the rounded
platform aggregate of `dashboard.py` lines 118/185 has spend column
summing to 1.01, while the filtered table's spend sums to 1.006, so the
sum-conservation claim fails for the aggregate rows as the code builds
them. -/
theorem agg_sum_rounded_not_conserving :
    ((agg_sum_rounded MarketingRow.platform MarketingRow.spend [exC3]).map
        Prod.snd).sum ≠ ([exC3].map MarketingRow.spend).sum := by
  have hsingle : agg_sum_rounded MarketingRow.platform MarketingRow.spend [exC3]
      = [(exC3.platform, round2 exC3.spend)] := by
    unfold agg_sum_rounded group_keys group_rows
    simp
  rw [hsingle]
  have hspend : exC3.spend = 1006 / 1000 := rfl
  simp only [List.map_cons, List.map_nil, List.sum_cons, List.sum_nil, add_zero,
    hspend, round2_eval_1006]
  norm_num

/-- C3 amended: sum conservation holds for the unrounded group sums of
every grouping dimension (platform, state, tactic, date) and every numeric
column, and for the date-dimension daily aggregate exactly as the code
builds it (`dashboard.py` line 146 applies no rounding); only the
2-decimal rounding applied to the platform/state/tactic aggregate tables
breaks exact conservation. -/
theorem sum_conservation_unrounded :
    (∀ (fm : List MarketingRow) (val : MarketingRow → Rat),
      (group_sums MarketingRow.platform val fm).sum = (fm.map val).sum ∧
      (group_sums MarketingRow.state val fm).sum = (fm.map val).sum ∧
      (group_sums MarketingRow.tactic val fm).sum = (fm.map val).sum ∧
      (group_sums MarketingRow.date val fm).sum = (fm.map val).sum) ∧
    (∀ fm : List MarketingRow,
      (daily_spend fm).sum = (fm.map MarketingRow.spend).sum) := by
  constructor
  · intro fm val
    exact ⟨group_sums_conserve _ _ _, group_sums_conserve _ _ _,
      group_sums_conserve _ _ _, group_sums_conserve _ _ _⟩
  · intro fm
    exact group_sums_conserve _ _ _

/-- Helper: rounding half-to-even moves a value by at most one half. -/
theorem abs_round_half_even_sub (q : Rat) :
    |(round_half_even q : Rat) - q| ≤ 1 / 2 := by
  have hfl : ((⌊q⌋ : Int) : Rat) ≤ q := Int.floor_le q
  have hfu : q < ((⌊q⌋ : Int) : Rat) + 1 := Int.lt_floor_add_one q
  rw [round_half_even]
  split_ifs with h1 h2 h3 <;> rw [abs_le] <;> push_cast <;> constructor <;> linarith

/-- Helper: pandas 2-decimal rounding moves a value by at most 1/200. -/
theorem abs_round2_sub (q : Rat) : |round2 q - q| ≤ 1 / 200 := by
  have h := abs_round_half_even_sub (q * 100)
  have heq : round2 q - q = ((round_half_even (q * 100) : Rat) - q * 100) / 100 := by
    rw [round2]
    ring
  rw [heq, abs_div]
  have h100 : |(100 : Rat)| = 100 := by norm_num
  rw [h100, div_le_iff (by norm_num : (0:Rat) < 100)]
  linarith

/-- Helper: rounding every entry of a list moves its sum by at most
1/200 per entry. -/
theorem abs_sum_map_round2_sub (l : List Rat) :
    |(l.map round2).sum - l.sum| ≤ (l.length : Rat) * (1 / 200) := by
  induction l with
  | nil => simp
  | cons a t ih =>
    have ha := abs_round2_sub a
    have hsplit : ((a :: t).map round2).sum - (a :: t).sum =
        (round2 a - a) + ((t.map round2).sum - t.sum) := by
      simp only [List.map_cons, List.sum_cons]
      ring
    calc |((a :: t).map round2).sum - (a :: t).sum|
        ≤ |round2 a - a| + |(t.map round2).sum - t.sum| := by
          rw [hsplit]; exact abs_add _ _
      _ ≤ 1 / 200 + (t.length : Rat) * (1 / 200) := by
          exact add_le_add ha ih
      _ = (((a :: t).length : Rat)) * (1 / 200) := by
          simp only [List.length_cons]
          push_cast
          ring

/-- Helper: rounding every entry of a nonempty list moves its mean by at
most 1/200. -/
theorem abs_list_mean_round2_sub (l : List Rat) (h : l ≠ []) :
    |list_mean (l.map round2) - list_mean l| ≤ 1 / 200 := by
  have hn : (0 : Rat) < l.length := by
    have := List.length_pos.mpr h
    exact_mod_cast this
  have hlen : (l.map round2).length = l.length := List.length_map l round2
  have hsum := abs_sum_map_round2_sub l
  rw [list_mean, list_mean, hlen, div_sub_div_same, abs_div,
    abs_of_pos hn, div_le_iff hn]
  linarith

/-- Two-row one-platform table whose channel mean roas 1.006 rounds to
1.01: rows with roas 1 and 1.012. -/
def rowC4a : MarketingRow :=
  { date := 1, platform := "A", tactic := "T", state := "CA",
    spend := 10, attributed_revenue := 10, impressions := 10, clicks := 5,
    roas := 1, ctr := 1, cpc := 1 }

/-- Second row of the C4 counterexample table. -/
def rowC4b : MarketingRow :=
  { date := 1, platform := "A", tactic := "T", state := "CA",
    spend := 10, attributed_revenue := 10, impressions := 10, clicks := 5,
    roas := 1012 / 1000, ctr := 1, cpc := 1 }

/-- C4 counterexample table. -/
def fmC4 : List MarketingRow := [rowC4a, rowC4b]

/-- Helper: a nonempty table has a nonempty sorted key list. -/
theorem group_keys_ne_nil {K : Type} [LinearOrder K] (key : MarketingRow → K)
    (fm : List MarketingRow) (h : fm ≠ []) : group_keys key fm ≠ [] := by
  rw [group_keys]
  intro hcon
  have hperm := List.perm_insertionSort (fun a b : K => a ≤ b) (fm.map key).dedup
  rw [hcon] at hperm
  have h2 : (fm.map key).dedup = [] := hperm.nil_eq.symm
  rw [List.dedup_eq_nil, List.map_eq_nil_iff] at h2
  exact h h2

/-- Helper: the rounded channel roas aggregate of the C4 table. -/
theorem channel_performance_roas_fmC4 :
    channel_performance_roas fmC4 = [("A", round2 (1006 / 1000))] := by
  unfold channel_performance_roas agg_mean_rounded group_keys group_rows fmC4
  have ha : rowC4a.roas = 1 := rfl
  have hb : rowC4b.roas = 1012 / 1000 := rfl
  have hpa : rowC4a.platform = "A" := rfl
  have hpb : rowC4b.platform = "A" := rfl
  simp [hpa, hpb, list_mean, ha, hb]
  norm_num

/-- C4 counterexample: on the two-row table `fmC4` the code's `avg_roas`
(`dashboard.py` line 189, computed from the `.round(2)`-ed aggregate of
line 185) is 1.01, while the mean of the unrounded channel mean roas is
1.006 — so the claim that further computation operates on unrounded
aggregates fails. -/
theorem avg_roas_uses_rounded_aggregates :
    avg_roas fmC4 ≠ spec_avg_roas fmC4 := by
  have h1 : avg_roas fmC4 = 101 / 100 := by
    rw [avg_roas, channel_performance_roas_fmC4, round2_eval_1006]
    rw [list_mean]
    norm_num
  have h2 : spec_avg_roas fmC4 = 1006 / 1000 := by
    rw [spec_avg_roas]
    unfold group_means group_keys group_rows fmC4
    have ha : rowC4a.roas = 1 := rfl
    have hb : rowC4b.roas = 1012 / 1000 := rfl
    have hpa : rowC4a.platform = "A" := rfl
    have hpb : rowC4b.platform = "A" := rfl
    simp [hpa, hpb, list_mean, ha, hb]
    norm_num
  rw [h1, h2]
  norm_num

/-- C4 amended: the 2-decimal display rounding is applied to the
platform/state/tactic aggregates before they feed the recommendation
computations — `avg_roas` is the mean of the per-channel rounded mean
roas, not of the unrounded ones — and this pre-rounding perturbs each
consumed aggregate value by at most 1/200, so `avg_roas` differs from its
unrounded counterpart by at most 0.005. -/
theorem avg_roas_rounded_spec (fm : List MarketingRow) (h : fm ≠ []) :
    avg_roas fm =
      list_mean ((group_means MarketingRow.platform MarketingRow.roas fm).map round2) ∧
    |avg_roas fm - spec_avg_roas fm| ≤ 1 / 200 := by
  have heq : avg_roas fm =
      list_mean ((group_means MarketingRow.platform MarketingRow.roas fm).map round2) := by
    rw [avg_roas, channel_performance_roas, agg_mean_rounded, group_means,
      List.map_map, List.map_map]
    rfl
  refine ⟨heq, ?_⟩
  have hne : group_means MarketingRow.platform MarketingRow.roas fm ≠ [] := by
    rw [group_means]
    intro hcon
    rw [List.map_eq_nil_iff] at hcon
    exact group_keys_ne_nil MarketingRow.platform fm h hcon
  rw [heq, spec_avg_roas]
  exact abs_list_mean_round2_sub _ hne

/-- Witness for C4's amended claim at the table `fmC4`. -/
theorem avg_roas_rounded_spec_witness :
    fmC4 ≠ [] ∧
      (avg_roas fmC4 =
        list_mean ((group_means MarketingRow.platform MarketingRow.roas fmC4).map round2) ∧
      |avg_roas fmC4 - spec_avg_roas fmC4| ≤ 1 / 200) :=
  ⟨by decide, avg_roas_rounded_spec fmC4 (by decide)⟩

/-- Specification of a correct "best performer" pick over an aggregate
column: the key appears with value `v`, `v` is maximal over the column,
and among rows tying at `v` the picked key is least in ascending order. -/
def BestPick {K : Type} [LinearOrder K] (l : List (K × Rat)) (k : K) : Prop :=
  ∃ v, (k, v) ∈ l ∧ (∀ q ∈ l, q.2 ≤ v) ∧ (∀ q ∈ l, q.2 = v → k ≤ q.1)

/-- Helper: the idxmax scan returns one of its candidate rows. -/
theorem idxmax_from_mem {K : Type} :
    ∀ (ps : List (K × Rat)) (best : K × Rat), idxmax_from ps best ∈ best :: ps := by
  intro ps
  induction ps with
  | nil => intro best; exact List.mem_cons_self _ _
  | cons p t ih =>
    intro best
    rw [idxmax_from]
    split
    · exact List.mem_cons_of_mem best (ih p)
    · rcases List.mem_cons.mp (ih best) with h | h
      · rw [h]
        exact List.mem_cons_self _ _
      · exact List.mem_cons_of_mem best (List.mem_cons_of_mem p h)

/-- Helper: the idxmax scan result dominates the current best and every
remaining row. -/
theorem idxmax_from_le {K : Type} :
    ∀ (ps : List (K × Rat)) (best : K × Rat),
      best.2 ≤ (idxmax_from ps best).2 ∧ ∀ q ∈ ps, q.2 ≤ (idxmax_from ps best).2 := by
  intro ps
  induction ps with
  | nil => intro best; exact ⟨le_refl _, by intro q h; simp at h⟩
  | cons p t ih =>
    intro best
    rw [idxmax_from]
    split
    · rename_i h
      refine ⟨le_of_lt (lt_of_lt_of_le h (ih p).1), ?_⟩
      intro q hq
      rcases List.mem_cons.mp hq with hq | hq
      · exact hq ▸ (ih p).1
      · exact (ih p).2 q hq
    · rename_i h
      refine ⟨(ih best).1, ?_⟩
      intro q hq
      rcases List.mem_cons.mp hq with hq | hq
      · exact hq ▸ le_trans (not_lt.mp h) (ih best).1
      · exact (ih best).2 q hq

/-- Helper: with strictly ascending keys, the idxmax scan keeps the first
row attaining the maximum, so its key is least among the tied rows. -/
theorem idxmax_from_first {K : Type} [LinearOrder K] :
    ∀ (ps : List (K × Rat)) (best : K × Rat),
      List.Pairwise (fun p q : K × Rat => p.1 < q.1) (best :: ps) →
      ∀ q ∈ best :: ps, q.2 = (idxmax_from ps best).2 →
        (idxmax_from ps best).1 ≤ q.1 := by
  intro ps
  induction ps with
  | nil =>
    intro best _ q hq hv
    rcases List.mem_cons.mp hq with h | h
    · exact h ▸ le_refl _
    · simp at h
  | cons p t ih =>
    intro best hpw q hq hv
    rcases List.pairwise_cons.mp hpw with ⟨hbest_lt, hpt⟩
    rw [idxmax_from] at hv ⊢
    by_cases h : p.2 > best.2
    · rw [if_pos h] at hv ⊢
      rcases List.mem_cons.mp hq with hqb | hqpt
      · exfalso
        have h1 : p.2 ≤ (idxmax_from t p).2 := (idxmax_from_le t p).1
        have h2 : best.2 < (idxmax_from t p).2 := lt_of_lt_of_le h h1
        rw [hqb] at hv
        exact absurd hv (ne_of_lt h2)
      · exact ih p hpt q hqpt hv
    · rw [if_neg h] at hv ⊢
      have hbt : List.Pairwise (fun p q : K × Rat => p.1 < q.1) (best :: t) := by
        refine List.pairwise_cons.mpr ⟨?_, hpt.of_cons⟩
        intro x hx
        exact hbest_lt x (List.mem_cons_of_mem p hx)
      rcases List.mem_cons.mp hq with hqb | hqpt
      · exact ih best hbt q (hqb ▸ List.mem_cons_self _ _) (hqb ▸ hv)
      · rcases List.mem_cons.mp hqpt with hqp | hqt
        · have hple : p.2 ≤ best.2 := not_lt.mp h
          have hble : best.2 ≤ (idxmax_from t best).2 := (idxmax_from_le t best).1
          have hbeq : best.2 = (idxmax_from t best).2 := by
            rw [hqp] at hv
            exact le_antisymm hble (hv ▸ hple)
          have hres : (idxmax_from t best).1 ≤ best.1 :=
            ih best hbt best (List.mem_cons_self _ _) hbeq
          have hbp : best.1 < p.1 := hbest_lt p (List.mem_cons_self _ _)
          exact hqp ▸ le_of_lt (lt_of_le_of_lt hres hbp)
        · exact ih best hbt q (List.mem_cons_of_mem best hqt) hv

/-- Helper: the keyed rows of a rounded mean aggregate have strictly
ascending keys. -/
theorem agg_mean_rounded_pairwise {K : Type} [LinearOrder K]
    (key : MarketingRow → K) (val : MarketingRow → Rat) (fm : List MarketingRow) :
    List.Pairwise (fun p q : K × Rat => p.1 < q.1) (agg_mean_rounded key val fm) := by
  rw [agg_mean_rounded, List.pairwise_map]
  have hs : List.Pairwise (fun a b : K => a ≤ b) (group_keys key fm) :=
    List.sorted_insertionSort _ _
  have hn : (group_keys key fm).Nodup :=
    (List.perm_insertionSort _ _).nodup_iff.mpr (List.nodup_dedup _)
  exact (hs.and hn).imp (fun h => lt_of_le_of_ne h.1 h.2)

/-- Helper: on a nonempty table, `idxmax` over a rounded mean aggregate
returns a key satisfying `BestPick`. -/
theorem idxmax_agg_best {K : Type} [LinearOrder K] (key : MarketingRow → K)
    (val : MarketingRow → Rat) (fm : List MarketingRow) (h : fm ≠ []) :
    ∃ k, idxmax (agg_mean_rounded key val fm) = some k ∧
      BestPick (agg_mean_rounded key val fm) k := by
  have hne : agg_mean_rounded key val fm ≠ [] := by
    rw [agg_mean_rounded]
    intro hcon
    rw [List.map_eq_nil_iff] at hcon
    exact group_keys_ne_nil key fm h hcon
  have hpw := agg_mean_rounded_pairwise key val fm
  match hl : agg_mean_rounded key val fm with
  | [] => exact absurd hl hne
  | p :: ps =>
    rw [hl] at hpw
    refine ⟨(idxmax_from ps p).1, rfl, (idxmax_from ps p).2, ?_, ?_, ?_⟩
    · have := idxmax_from_mem ps p
      simpa using this
    · intro q hq
      rcases List.mem_cons.mp hq with hq | hq
      · exact hq ▸ (idxmax_from_le ps p).1
      · exact (idxmax_from_le ps p).2 q hq
    · exact idxmax_from_first ps p hpw

/-- Row of the tie table: Facebook with roas 2. -/
def rowTieF : MarketingRow :=
  { date := 1, platform := "Facebook", tactic := "T", state := "CA",
    spend := 10, attributed_revenue := 20, impressions := 10, clicks := 5,
    roas := 2, ctr := 1, cpc := 1 }

/-- Row of the tie table: Google with roas 2. -/
def rowTieG : MarketingRow :=
  { date := 1, platform := "Google", tactic := "T", state := "CA",
    spend := 10, attributed_revenue := 20, impressions := 10, clicks := 5,
    roas := 2, ctr := 1, cpc := 1 }

/-- Tie table: channels Facebook and Google both with mean roas 2.0. -/
def fmTie : List MarketingRow := [rowTieF, rowTieG]

/-- C2: on every nonempty filtered table the best channel, state and
tactic picks of `dashboard.py` lines 197/203/209 are the aggregate rows of
maximal roas, with ties broken by the first key in ascending sort order
(pandas sorts group keys ascending and `idxmax` keeps the first maximum);
in particular channels Facebook and Google tying at roas 2.0 yield
Facebook. -/
theorem best_picks_spec :
    (∀ fm : List MarketingRow, fm ≠ [] →
      (∃ k, best_channel fm = some k ∧ BestPick (channel_performance_roas fm) k) ∧
      (∃ k, best_state fm = some k ∧
        BestPick (agg_mean_rounded MarketingRow.state MarketingRow.roas fm) k) ∧
      (∃ k, best_tactic fm = some k ∧
        BestPick (agg_mean_rounded MarketingRow.tactic MarketingRow.roas fm) k)) ∧
    best_channel fmTie = some "Facebook" := by
  constructor
  · intro fm h
    exact ⟨idxmax_agg_best MarketingRow.platform MarketingRow.roas fm h,
      idxmax_agg_best MarketingRow.state MarketingRow.roas fm h,
      idxmax_agg_best MarketingRow.tactic MarketingRow.roas fm h⟩
  · have hFGL : (['F', 'a', 'c', 'e', 'b', 'o', 'o', 'k'] : List Char) ≤
        ['G', 'o', 'o', 'g', 'l', 'e'] := by decide
    unfold best_channel channel_performance_roas agg_mean_rounded group_keys
      group_rows fmTie
    have hpF : rowTieF.platform = "Facebook" := rfl
    have hpG : rowTieG.platform = "Google" := rfl
    have hrF : rowTieF.roas = 2 := rfl
    have hrG : rowTieG.roas = 2 := rfl
    simp [hpF, hpG, hrF, hrG, eq_true hFGL, list_mean, idxmax, idxmax_from]

/-- Witness for C2 at the tie table. -/
theorem best_picks_spec_witness :
    fmTie ≠ [] ∧
      (∃ k, best_channel fmTie = some k ∧ BestPick (channel_performance_roas fmTie) k) :=
  ⟨by decide, (best_picks_spec.1 fmTie (by decide)).1⟩

end MarketingDashboard
